import Mathlib

/-!
Verification of the block-sparse tensor reindexing and contraction engine of
this repository (`utils/librascal.py` and `utils/models/soap.py`).

The external spherical-harmonics calculator (librascal's
`SphericalExpansion`) is an opaque collaborator: its outputs (a dense
coefficient array, per-center metadata, gradient coefficients and gradient
metadata) are inputs of the embedded functions.  Dense numpy arrays are
embedded as index functions `ℕ → ... → ℚ` together with explicit extents;
numpy `reshape` calls are therefore absorbed into the index arithmetic of
the embedding.  Floating point arithmetic is idealised as exact rational
arithmetic; the square roots appearing in the power-spectrum scale factors
are handled by working over an arbitrary commutative field equipped with an
abstract square-root symbol.

`Labels` rows are embedded as tuples; a `Labels` object's rows are a Lean
list of tuples in the same order as the numpy array of the source.
-/

/-! ## Small list utilities mirroring the numpy operations used by the code -/

/-- Insert an integer into a sorted duplicate-free list, keeping it sorted
and duplicate-free.  Together with `uniqueSortedInts` this embeds
`np.unique` on a 1-d integer array (sorted ascending, duplicates removed). -/
def insertSortedInt (x : ℤ) : List ℤ → List ℤ
  | [] => [x]
  | y :: ys =>
    if x < y then x :: y :: ys
    else if x = y then y :: ys
    else y :: insertSortedInt x ys

/-- Embeds `np.unique` on a list of integers: sorted ascending, duplicates removed. -/
def uniqueSortedInts (l : List ℤ) : List ℤ :=
  l.foldr insertSortedInt []

/-- Lexicographic strict order on integer pairs (numpy's structured-array
row order for two int32 fields). -/
def pairLtb (a b : ℤ × ℤ) : Bool :=
  a.1 < b.1 || (a.1 == b.1 && a.2 < b.2)

/-- Insert an integer pair into a lexicographically sorted duplicate-free
list of pairs. -/
def insertSortedPair (x : ℤ × ℤ) : List (ℤ × ℤ) → List (ℤ × ℤ)
  | [] => [x]
  | y :: ys =>
    if pairLtb x y then x :: y :: ys
    else if x = y then y :: ys
    else y :: insertSortedPair x ys

/-- Embeds `np.unique` on a list of integer pairs (structured rows): sorted
lexicographically, duplicates removed. -/
def uniqueSortedPairs (l : List (ℤ × ℤ)) : List (ℤ × ℤ) :=
  l.foldr insertSortedPair []

/-- Lexicographic strict order on gradient-sample triples
`(sample, structure, atom)`; the `sample` field is a row index. -/
def tripleLtb (a b : ℕ × ℤ × ℤ) : Bool :=
  a.1 < b.1 || (a.1 == b.1 && (a.2.1 < b.2.1 || (a.2.1 == b.2.1 && a.2.2 < b.2.2)))

/-- Insert a gradient-sample triple into a lexicographically sorted
duplicate-free list of triples. -/
def insertSortedTriple (x : ℕ × ℤ × ℤ) : List (ℕ × ℤ × ℤ) → List (ℕ × ℤ × ℤ)
  | [] => [x]
  | y :: ys =>
    if tripleLtb x y then x :: y :: ys
    else if x = y then y :: ys
    else y :: insertSortedTriple x ys

/-- Embeds `np.unique` on a list of gradient-sample triples. -/
def uniqueSortedTriples (l : List (ℕ × ℤ × ℤ)) : List (ℕ × ℤ × ℤ) :=
  l.foldr insertSortedTriple []

/-! ## Shared hyperparameters and angular slices -/

/-- The hyperparameters of the calculators that the reindexing code reads:
`max_angular`, `max_radial` and the `compute_gradients` flag. -/
structure SphHypers where
  maxAngular : ℕ
  maxRadial : ℕ
  computeGradients : Bool

/-- Start offset of the angular block for degree `l` inside the flattened
`(l, m)` axis; embeds the `lm_slices` list built by the running sum
`start, stop = stop, stop + 2*l+1` in `RascalSphericalExpansion.compute`
(the slice for `l` is `[lmStart l, lmStart l + 2*l+1)`). -/
def lmStart : ℕ → ℕ
  | 0 => 0
  | l + 1 => lmStart l + (2 * l + 1)

/-! ## `RascalSphericalExpansion.compute` -/

/-- Everything `RascalSphericalExpansion.compute` reads back from the
external calculator: `data` is the dense coefficient array after the
`reshape(n_centers, n_species, max_radial, -1)` (indexed by center row,
neighbor-species index, radial index, flattened `lm`); `info` the rows of
`get_representation_info` (`structure`, global center index, center
species); `grads` the gradient array after its analogous reshape; and
`gradInfo` the rows of `get_gradients_info`
(`structure`, global center, global neighbor, center species, neighbor
species). -/
structure CalcOutput where
  data : ℕ → ℕ → ℕ → ℕ → ℚ
  info : List (ℤ × ℤ × ℤ)
  grads : ℕ → ℕ → ℕ → ℕ → ℚ
  gradInfo : List (ℤ × ℤ × ℤ × ℤ × ℤ)

/-- The `global_species` list: sorted distinct atomic numbers over all frames
(`np.unique(np.concatenate([f.numbers for f in frames]))`).  A frame is
embedded as its list of atomic numbers. -/
def globalSpecies (frames : List (List ℤ)) : List ℤ :=
  uniqueSortedInts frames.flatten

/-- The `global_to_per_structure_atom_id` list: for every frame in order,
the local indices `0, ..., len(frame)-1`. -/
def globalToLocal (frames : List (List ℤ)) : List ℕ :=
  frames.flatMap (fun f => List.range f.length)

/-- Per-structure local atom index of the flat global atom index `g`. -/
def localAtomId (frames : List (List ℤ)) (g : ℤ) : ℕ :=
  (globalToLocal frames).getD g.toNat 0

/-- Number of atoms in all frames before frame `s` (the flat global index
of frame `s`'s first atom). -/
def frameOffset (frames : List (List ℤ)) (s : ℕ) : ℕ :=
  ((frames.take s).map List.length).sum

/-- The `sparse` keys Labels of `RascalSphericalExpansion.compute`: the full
cross-product `(l, center_species, neighbor_species)` for `l ≤ max_angular`
and both species ranging over the global species list, in the order of the
source's triple comprehension. -/
def sphKeys (maxAngular : ℕ) (species : List ℤ) : List (ℕ × ℤ × ℤ) :=
  (List.range (maxAngular + 1)).flatMap fun l =>
    species.flatMap fun cs => species.map fun ns => (l, cs, ns)

/-- Embeds `np.where(info[:, 2] == center_species)[0]`: the rows of `info` whose
center species equals `cs`, in order. -/
def centerMask (info : List (ℤ × ℤ × ℤ)) (cs : ℤ) : List ℕ :=
  (List.range info.length).filter fun r => (info.getD r (0, 0, 0)).2.2 == cs

/-- Row indices of `grad_info` matched by the gradient mask of the source:
same structure, same (global) center, and neighbor species equal to the
block's neighbor species (`grad_info[:, 0] == structure`,
`grad_info[:, 1] == center`, `grad_info[:, 4] == neighbor_species`). -/
def gradMatches (gradInfo : List (ℤ × ℤ × ℤ × ℤ × ℤ)) (structure_ center ns : ℤ) :
    List ℕ :=
  (List.range gradInfo.length).filter fun gi =>
    let row := gradInfo.getD gi (0, 0, 0, 0, 0)
    row.1 == structure_ && row.2.1 == center && row.2.2.2.2 == ns

/-- One gradient entry of a spherical-expansion block: the slice
`gradients[3*gi : 3*gi+3, ns_i, :, lm_slices[l]]` with axes reordered by
`swapaxes(1, 2)` to `(direction, m, n)`. -/
def sphGradEntry (c : CalcOutput) (nsIdx l gi : ℕ) : ℕ → ℕ → ℕ → ℚ :=
  fun x m n => c.grads (3 * gi + x) nsIdx n (lmStart l + m)

/-- Squared Frobenius norm of one gradient entry; `np.linalg.norm(g) == 0`
iff this is `0` (the norm is the square root of this sum, and the source
compares the norm with `0` exactly). -/
def sphGradEntryNormSq (h : SphHypers) (l : ℕ) (g : ℕ → ℕ → ℕ → ℚ) : ℚ :=
  ∑ x ∈ Finset.range 3, ∑ m ∈ Finset.range (2 * l + 1),
    ∑ n ∈ Finset.range h.maxRadial, (g x m n) ^ 2

/-- The `(sample_i, grad_index)` pairs surviving the gradient scan of the
source: outer loop over the block's samples in order, inner loop over the
matching `grad_info` rows in order, dropping entries of exactly zero norm. -/
def sphGradPairs (h : SphHypers) (c : CalcOutput) (mask : List ℕ)
    (nsIdx l : ℕ) (ns : ℤ) : List (ℕ × ℕ) :=
  (List.range mask.length).flatMap fun si =>
    let row := c.info.getD (mask.getD si 0) (0, 0, 0)
    (gradMatches c.gradInfo row.1 row.2.1 ns).filterMap fun gi =>
      if sphGradEntryNormSq h l (sphGradEntry c nsIdx l gi) = 0 then none
      else some (si, gi)

/-- A gradient sub-block of a spherical-expansion block.  `nRows`, `nm` and
`nprops` record the extents of the value array, whose shape is
`(nRows, 3, nm, nprops)`; `samples` are `(sample, structure, atom)`
triples; `data` is indexed by (gradient row, direction, m, n). -/
structure SphGrad where
  nRows : ℕ
  nm : ℕ
  nprops : ℕ
  samples : List (ℕ × ℤ × ℤ)
  data : ℕ → ℕ → ℕ → ℕ → ℚ

/-- A block of the spherical-expansion descriptor: samples are
`(structure, center)` pairs, values have shape `(n_samples, 2l+1,
max_radial)` and are indexed by (sample row, m, n). -/
structure SphBlock where
  samples : List (ℤ × ℤ)
  nm : ℕ
  values : ℕ → ℕ → ℕ → ℚ
  grad : Option SphGrad

/-- The `"positions"` gradient attached to the block for key `(l, cs, ns)`
by `RascalSphericalExpansion.compute`: one row per surviving
`(sample, grad_index)` pair, each row carrying the 3-direction gradient
slice, with gradient samples `(sample_i, structure, local neighbor)`; when
no entry survives, the explicit empty gradient
`np.zeros((0, 3, 2l+1, max_radial))` with an empty samples Labels. -/
def sphGradFor (h : SphHypers) (frames : List (List ℤ)) (c : CalcOutput)
    (mask : List ℕ) (nsIdx l : ℕ) (ns : ℤ) : SphGrad :=
  let entries := sphGradPairs h c mask nsIdx l ns
  if entries.length = 0 then
    { nRows := 0
      nm := 2 * l + 1
      nprops := h.maxRadial
      samples := []
      data := fun _ _ _ _ => 0 }
  else
    { nRows := entries.length
      nm := 2 * l + 1
      nprops := h.maxRadial
      samples := entries.map fun e =>
        let row := c.gradInfo.getD e.2 (0, 0, 0, 0, 0)
        (e.1, row.1, (localAtomId frames row.2.2.1 : ℤ))
      data := fun r x m n => sphGradEntry c nsIdx l ((entries.getD r (0, 0)).2) x m n }

/-- The block built by `RascalSphericalExpansion.compute` for the key
`(l, cs, ns)`: centers of species `cs` selected by the mask, the
neighbor-species axis fixed at the index of `ns` in the global species
list, the angular axis sliced at degree `l` and swapped with the radial
axis, samples remapped to `(structure, local center)` pairs. -/
def sphBlockFor (h : SphHypers) (frames : List (List ℤ)) (c : CalcOutput)
    (species : List ℤ) (key : ℕ × ℤ × ℤ) : SphBlock :=
  let l := key.1
  let cs := key.2.1
  let ns := key.2.2
  let nsIdx := species.findIdx (· == ns)
  let mask := centerMask c.info cs
  { samples := mask.map fun r =>
      let row := c.info.getD r (0, 0, 0)
      (row.1, (localAtomId frames row.2.1 : ℤ))
    nm := 2 * l + 1
    values := fun i m n => c.data (mask.getD i 0) nsIdx n (lmStart l + m)
    grad :=
      if h.computeGradients then some (sphGradFor h frames c mask nsIdx l ns)
      else none }

/-- The descriptor returned by `RascalSphericalExpansion.compute`: keys and
one block per key, in matching order. -/
structure SphDescriptor where
  keys : List (ℕ × ℤ × ℤ)
  blocks : List SphBlock

/-- Embeds `RascalSphericalExpansion.compute`, after the external calculator has
produced `c`: build the full cross-product key set and one block per key. -/
def sphCompute (h : SphHypers) (frames : List (List ℤ)) (c : CalcOutput) :
    SphDescriptor :=
  let species := globalSpecies frames
  let keys := sphKeys h.maxAngular species
  { keys := keys
    blocks := keys.map (sphBlockFor h frames c species) }

/-! ## `RascalPairExpansion.compute` -/

/-- A block of the pair-expansion descriptor: samples are
`(structure, center_i, center_j)` triples, values have shape
`(n_pairs, 2l+1, max_radial)` indexed by (pair row, m, n). -/
structure PairBlock where
  samples : List (ℕ × ℕ × ℕ)
  nm : ℕ
  values : ℕ → ℕ → ℕ → ℚ

/-- The pair-expansion descriptor: keys `(spherical_harmonics_l,)` and one
block per key. -/
structure PairDescriptor where
  keys : List ℕ
  blocks : List PairBlock

/-- Squared coefficient norm of the `(center, neighbor)` pair `(i, c, j)`:
`(idata ** 2).sum(axis=(2, 3))` at that pair, where the calculator's output
for structure `i` is embedded, after its
`reshape(n_atoms, max_atoms, max_radial, -1)`, as the index function
`calcF i : center → neighbor → n → lm → ℚ`. -/
def pairNormSq (h : SphHypers) (calcF : ℕ → ℕ → ℕ → ℕ → ℕ → ℚ)
    (i c j : ℕ) : ℚ :=
  ∑ n ∈ Finset.range h.maxRadial,
    ∑ lm ∈ Finset.range ((h.maxAngular + 1) ^ 2), (calcF i c j n lm) ^ 2

/-- The `(structure, center_i, center_j)` triples retained by the sparse
pair pruning: structures in order, and for each structure the pairs in the
row-major order of `np.where`, keeping exactly those whose squared
coefficient norm exceeds `1e-20`.  A frame is embedded by its atom count. -/
def retainedTriples (h : SphHypers) (calcF : ℕ → ℕ → ℕ → ℕ → ℕ → ℚ)
    (frames : List ℕ) (maxAtoms : ℕ) : List (ℕ × ℕ × ℕ) :=
  (List.range frames.length).flatMap fun i =>
    (List.range (frames.getD i 0)).flatMap fun c =>
      ((List.range maxAtoms).filter fun j =>
        pairNormSq h calcF i c j > 1 / 10 ^ 20).map fun j => (i, c, j)

/-- The concatenated `data` rows of `RascalPairExpansion.compute`: one
radial-angular coefficient table `(n, lm) → ℚ` per retained pair, in the
same order as `retainedTriples`. -/
def pairData (h : SphHypers) (calcF : ℕ → ℕ → ℕ → ℕ → ℕ → ℚ)
    (frames : List ℕ) (maxAtoms : ℕ) : List (ℕ → ℕ → ℚ) :=
  (retainedTriples h calcF frames maxAtoms).map fun t =>
    fun n lm => calcF t.1 t.2.1 t.2.2 n lm

/-- The block of `RascalPairExpansion.compute` for degree `l`:
`data[..., lm_slices[l]].swapaxes(1, 2)`, sharing one samples Labels across
all blocks. -/
def pairBlockFor (h : SphHypers) (calcF : ℕ → ℕ → ℕ → ℕ → ℕ → ℚ)
    (frames : List ℕ) (maxAtoms l : ℕ) : PairBlock :=
  { samples := retainedTriples h calcF frames maxAtoms
    nm := 2 * l + 1
    values := fun r m n =>
      ((pairData h calcF frames maxAtoms).getD r fun _ _ => 0) n (lmStart l + m) }

/-- Embeds `RascalPairExpansion.compute`.  The gradient flag is rejected before
anything else happens; in particular the result of the gradient-set case
does not depend on the calculator.  `calcF` is the opaque per-structure
calculator invocation (the source calls `calculator.transform(ijf)` once
per structure, on the frame with pseudo-species atomic numbers
`0 .. len(f)-1`); `frames` is the list of per-structure atom counts. -/
def pairCompute (h : SphHypers) (calcF : ℕ → ℕ → ℕ → ℕ → ℕ → ℚ)
    (frames : List ℕ) : Except String PairDescriptor :=
  if h.computeGradients then
    .error "Pair expansion with gradient is not implemented"
  else
    let maxAtoms := frames.foldr max 0
    .ok
      { keys := List.range (h.maxAngular + 1)
        blocks := (List.range (h.maxAngular + 1)).map
          (pairBlockFor h calcF frames maxAtoms) }

/-! ## `SphericalExpansionAutograd.backward` -/

/-- The context saved by `SphericalExpansionAutograd.forward` together with
the shapes the backward pass reads: `gradWidth` is
`grad_spherical_expansion.shape[1]`, `gradSpx` the saved gradient
coefficient matrix (row, column), `gradInfo` the saved
`get_gradients_info` rows `(structure, center_i, neighbor_i, rest...)`,
`outWidth` the row width shared by `grad_output` and
`grad_spherical_expansion` in the dot product, and `gradOut` the incoming
output gradient (row, column). -/
structure BackwardCtx where
  gradWidth : ℕ
  gradSpx : ℕ → ℕ → ℚ
  gradInfo : List (ℤ × ℕ × ℕ × ℤ × ℤ)
  outWidth : ℕ
  gradOut : ℕ → ℕ → ℚ

/-- The `torch.dot` product of two rows of width `w`. -/
def dotQ (w : ℕ) (u v : ℕ → ℚ) : ℚ :=
  ∑ k ∈ Finset.range w, u k * v k

/-- The position gradient accumulated by the backward pass:
`grad_positions[neighbor_i, spatial_i] += dot(grad_output[center_i, :],
grad_spherical_expansion[3 * sample + spatial_i, :])` over all rows
`sample` of `grad_info`. -/
def gradPositionsOf (ctx : BackwardCtx) : ℕ → ℕ → ℚ :=
  fun atom spatial =>
    ∑ s ∈ Finset.range ctx.gradInfo.length,
      if (ctx.gradInfo.getD s (0, 0, 0, 0, 0)).2.2.1 = atom then
        dotQ ctx.outWidth
          (ctx.gradOut (ctx.gradInfo.getD s (0, 0, 0, 0, 0)).2.1)
          (ctx.gradSpx (3 * s + spatial))
      else 0

/-- The tail of `SphericalExpansionAutograd.backward` after the position
gradient has been handled: the source tests `ctx.needs_input_grad[2]`
twice in a row — the second test, which raises the atomic-numbers error,
reads the cell flag again instead of `needs_input_grad[3]`. -/
def backwardTail (needs : Bool × Bool × Bool × Bool)
    (gradPos : Option (ℕ → ℕ → ℚ)) :
    Except String (Option Unit × Option (ℕ → ℕ → ℚ) × Option Unit × Option Unit) :=
  if needs.2.2.1 then .error "can not compute gradients w.r.t. cell"
  else if needs.2.2.1 then .error "can not compute gradients w.r.t. atomic numbers"
  else .ok (none, gradPos, none, none)

/-- Embeds `SphericalExpansionAutograd.backward`.  `needs` is
`ctx.needs_input_grad` for the four forward inputs
`(calculator, positions, cell, numbers)`; the four returned gradients are
in that order, with the unsupported ones embedded as `Option Unit`. -/
def sphBackward (ctx : BackwardCtx) (needs : Bool × Bool × Bool × Bool) :
    Except String (Option Unit × Option (ℕ → ℕ → ℚ) × Option Unit × Option Unit) :=
  if needs.1 then .error "can not compute gradients w.r.t. calculator"
  else if needs.2.1 then
    if ctx.gradWidth = 0 then
      .error "missing gradients, please set `compute_gradients` to True"
    else backwardTail needs (some (gradPositionsOf ctx))
  else backwardTail needs none

/-! ## `compute_power_spectrum` (`utils/models/soap.py`)

The contractor is generic over the scalar type: `α` is any field and
`sqrtA : ℕ → α` an abstract square-root symbol standing for `math.sqrt`
on the natural numbers `2` and `2l+1` (floating point square roots are
irrational, so they cannot be carried in `ℚ`; every statement below holds
for an arbitrary interpretation of `sqrtA`).  `ops.einsum` and
`ops.zeros_like` live in `utils/models/operations.py`, which is not part
of the sources; the contractions below are modelled from the spec:
output value at `(sample, prop_1, prop_2)` =
`factor * sum_m block_1[sample, m, prop_1] * block_2[sample, m, prop_2]`,
which is also the standard meaning of `einsum("ima, imb -> iab")`. -/

/-- The `"positions"` gradient of a spherical-expansion block as consumed
by `compute_power_spectrum`: samples are `(sample, structure, atom)`
triples whose first field indexes a row of the owning block's samples, and
`data` has shape `(n_gradient_samples, 3, 2l+1, n_properties)` indexed by
(gradient row, direction, m, property). -/
structure SpxGrad (α : Type) where
  samples : List (ℕ × ℤ × ℤ)
  data : ℕ → ℕ → ℕ → ℕ → α

/-- A spherical-expansion block as consumed by `compute_power_spectrum`:
samples are `(structure, center)` pairs, `nm` is the length of the
`spherical_harmonics_m` component axis, `props` the rows of the properties
Labels with axis names `propNames`, `values` has shape
`(n_samples, nm, n_properties)`, and `grad` the optional `"positions"`
gradient. -/
structure SpxBlock (α : Type) where
  samples : List (ℤ × ℤ)
  nm : ℕ
  propNames : List String
  props : List (List ℤ)
  values : ℕ → ℕ → ℕ → α
  grad : Option (SpxGrad α)

/-- One entry of a spherical-expansion `TensorMap`: a key
`(spherical_harmonics_l, species_center, species_neighbor)` with its block. -/
abbrev SpxEntry (α : Type) := (ℕ × ℤ × ℤ) × SpxBlock α

/-- The `"positions"` gradient of a power-spectrum block: samples as for
`SpxGrad`, `data` of shape `(n_gradient_samples, 3, n_properties)` indexed
by (gradient row, direction, flattened property). -/
structure PSGrad (α : Type) where
  samples : List (ℕ × ℤ × ℤ)
  data : ℕ → ℕ → ℕ → α

/-- A power-spectrum block: a 2-d value array indexed by
(sample, flattened combined property). -/
structure PSBlock (α : Type) where
  samples : List (ℤ × ℤ)
  propNames : List String
  props : List (List ℤ)
  values : ℕ → ℕ → α
  grad : Option (PSGrad α)

/-- One entry of the power-spectrum `TensorMap` before the final
`keys_to_properties` fold: a key `(spherical_harmonics_l, species_center,
species_neighbor_1, species_neighbor_2)` with its block. -/
abbrev PSEntry (α : Type) := (ℕ × ℤ × ℤ × ℤ) × PSBlock α

section PowerSpectrum

variable {α : Type} [Field α]

/-- Embeds `slice_block(_, samples=common)` restricted to a gradient: keep the
gradient rows whose `sample` field refers to a kept block sample (listed in
`idxs` by old position), remapping the `sample` field to the new position. -/
def sliceSpxGrad (idxs : List ℕ) (g : SpxGrad α) : SpxGrad α :=
  let keep := (List.range g.samples.length).filter fun i =>
    idxs.contains (g.samples.getD i (0, 0, 0)).1
  { samples := keep.map fun i =>
      let r := g.samples.getD i (0, 0, 0)
      ((idxs.findIdx (· = r.1)), r.2.1, r.2.2)
    data := fun r x m p => g.data (keep.getD r 0) x m p }

/-- Embeds `slice_block(block, samples=common)`: keep the samples whose value
occurs in `common`, in the block's own order, reindexing values and the
attached gradient accordingly. -/
def sliceSpxBlock (b : SpxBlock α) (common : List (ℤ × ℤ)) : SpxBlock α :=
  let idxs := (List.range b.samples.length).filter fun i =>
    common.contains (b.samples.getD i (0, 0))
  { samples := idxs.map fun i => b.samples.getD i (0, 0)
    nm := b.nm
    propNames := b.propNames
    props := b.props
    values := fun i m p => b.values (idxs.getD i 0) m p
    grad := b.grad.map (sliceSpxGrad idxs) }

/-- Lines 53–61 of `soap.py`: if the two blocks' samples Labels differ,
slice both to `np.intersect1d` of their samples (the sorted duplicate-free
common rows); otherwise use the blocks as they are. -/
def alignPair (b1 b2 : SpxBlock α) : SpxBlock α × SpxBlock α :=
  if b1.samples = b2.samples then (b1, b2)
  else
    let common := uniqueSortedPairs (b1.samples.filter (b2.samples.contains ·))
    (sliceSpxBlock b1 common, sliceSpxBlock b2 common)

/-- The deduplication scale factor of `compute_power_spectrum`:
`1/sqrt(2l+1)` when the two neighbor species coincide, `sqrt(2)/sqrt(2l+1)`
otherwise. -/
def psFactor (sqrtA : ℕ → α) (l : ℕ) (ns1 ns2 : ℤ) : α :=
  if ns1 = ns2 then 1 / sqrtA (2 * l + 1) else sqrtA 2 / sqrtA (2 * l + 1)

/-- The combined properties axis names: the first block's property names
suffixed `_1`, then the second block's suffixed `_2`. -/
def psPropNames (b1 b2 : SpxBlock α) : List String :=
  b1.propNames.map (fun n => n ++ "_1") ++ b2.propNames.map (fun n => n ++ "_2")

/-- The combined properties rows: the cross-product of the two blocks'
property rows, first block's index outermost (the order of the source's
double comprehension and of the row-major flattening of the value array). -/
def psProperties (b1 b2 : SpxBlock α) : List (List ℤ) :=
  b1.props.flatMap fun p1 => b2.props.map fun p2 => p1 ++ p2

/-- Modelled from the spec: the contraction
`factor * ops.einsum("ima, imb -> iab", spx_1.values, spx_2.values)`
(`ops.einsum` is in `utils/models/operations.py`, not under the sources),
already flattened by `reshape(n_samples, -1)` to the 2-d
(sample, combined property) layout: the flat property `p` decomposes as
`p = a * n_props_2 + b`. -/
def psPairValues (f : α) (b1 b2 : SpxBlock α) : ℕ → ℕ → α :=
  fun i p =>
    f * ∑ m ∈ Finset.range b1.nm,
      b1.values i m (p / b2.props.length) * b2.values i m (p % b2.props.length)

/-- The gradient-less power-spectrum block built for one contracted pair:
samples of the (sliced) first block, cross-product properties, contracted
and flattened values. -/
def psBaseBlock (f : α) (b1 b2 : SpxBlock α) : PSBlock α :=
  { samples := b1.samples
    propNames := psPropNames b1 b2
    props := psProperties b1 b2
    values := psPairValues f b1 b2
    grad := none }

/-- The gradient samples of a power-spectrum block:
`np.unique(np.concatenate([gradient_1.samples, gradient_2.samples]))`,
i.e. the sorted duplicate-free union of the two gradient sample sets. -/
def psGradSamples (g1 g2 : SpxGrad α) : List (ℕ × ℤ × ℤ) :=
  uniqueSortedTriples (g1.samples ++ g2.samples)

/-- Modelled from the spec: the accumulated power-spectrum gradient.  Row
`r` of the result receives `factor * sum_m grad_1[i,x,m,a] *
block_2[sample(i),m,b]` for every row `i` of `gradient_1.samples` equal to
the `r`-th union sample, plus the symmetric term with the roles of the two
blocks swapped (`ops.einsum("ixma, imb -> ixab")` and
`ops.einsum("ima, ixmb -> ixab")` followed by the indexed `+=` loops of
the source; each union row receives at most one term from either side
because Labels rows are unique). -/
def psGradData (f : α) (b1 b2 : SpxBlock α) (g1 g2 : SpxGrad α) :
    ℕ → ℕ → ℕ → α :=
  fun r x p =>
    let gs := psGradSamples g1 g2
    let np2 := b2.props.length
    (∑ i ∈ Finset.range g1.samples.length,
      if gs.getD r (0, 0, 0) = g1.samples.getD i (0, 0, 0) then
        f * ∑ m ∈ Finset.range b1.nm,
          g1.data i x m (p / np2) *
            b2.values (g1.samples.getD i (0, 0, 0)).1 m (p % np2)
      else 0) +
    (∑ i ∈ Finset.range g2.samples.length,
      if gs.getD r (0, 0, 0) = g2.samples.getD i (0, 0, 0) then
        f * ∑ m ∈ Finset.range b1.nm,
          b1.values (g2.samples.getD i (0, 0, 0)).1 m (p / np2) *
            g2.data i x m (p % np2)
      else 0)

/-- Outcome of one iteration of the double loop of
`compute_power_spectrum`: the pair contributes nothing (`skip`, the
`continue` statements), contributes a key and a block (`emit`), or raises
(`err`). -/
inductive PairOutcome (α : Type) where
  | skip : PairOutcome α
  | emit : (ℕ × ℤ × ℤ × ℤ) → PSBlock α → PairOutcome α
  | err : String → PairOutcome α

/-- The body of the double loop of `compute_power_spectrum` for the pair
of entries `e1`, `e2` (`same` is `use_same_spherical_expansions`): skip
unless `l` and `species_center` match; align the samples; skip the
symmetric duplicate in self-combination mode; contract with the
deduplication factor; then the gradient logic of lines 102–152: if the
first block has no `"positions"` gradient the block is emitted without a
gradient; otherwise both gradients are fetched (fetching a missing
gradient from the second block raises, as `TensorBlock.gradient` does for
an undefined parameter), the pair is skipped entirely when either gradient
sample set is empty, and otherwise the accumulated gradient is attached. -/
def processPair (sqrtA : ℕ → α) (same : Bool) (e1 e2 : SpxEntry α) :
    PairOutcome α :=
  let l1 := e1.1.1
  let cs1 := e1.1.2.1
  let ns1 := e1.1.2.2
  let l2 := e2.1.1
  let cs2 := e2.1.2.1
  let ns2 := e2.1.2.2
  if l1 ≠ l2 ∨ cs1 ≠ cs2 then .skip
  else
    let p := alignPair e1.2 e2.2
    if ns1 > ns2 ∧ same = true then .skip
    else
      let f := psFactor sqrtA l1 ns1 ns2
      let base := psBaseBlock f p.1 p.2
      match p.1.grad with
      | none => .emit (l1, cs1, ns1, ns2) base
      | some g1 =>
        match p.2.grad with
        | none => .err "positions gradient is not defined in this block"
        | some g2 =>
          if g1.samples.length = 0 ∨ g2.samples.length = 0 then .skip
          else
            .emit (l1, cs1, ns1, ns2)
              { base with
                grad := some
                  { samples := psGradSamples g1 g2
                    data := psGradData f p.1 p.2 g1 g2 } }

/-- The double loop of `compute_power_spectrum` over the flattened list of
block pairs: appends the emitted `(key, block)` entries in order, and
propagates the first raised error (a pair that raises aborts the whole
call, so nothing is returned even for pairs already processed). -/
def psLoop (sqrtA : ℕ → α) (same : Bool) :
    List (SpxEntry α × SpxEntry α) → Except String (List (PSEntry α))
  | [] => .ok []
  | p :: rest =>
    match processPair sqrtA same p.1 p.2 with
    | .err msg => .error msg
    | .skip => psLoop sqrtA same rest
    | .emit k b =>
      match psLoop sqrtA same rest with
      | .error msg => .error msg
      | .ok out => .ok ((k, b) :: out)

/-- Embeds `compute_power_spectrum(spherical_expansion_1, spherical_expansion_2)`
up to (excluding) the final `keys_to_properties("spherical_harmonics_l")`
fold, which is an external `equistore` operation: when the second argument
is `None` the first collection is combined with itself in
self-combination mode. -/
def computePowerSpectrum (sqrtA : ℕ → α) (se1 : List (SpxEntry α))
    (se2? : Option (List (SpxEntry α))) : Except String (List (PSEntry α)) :=
  let same := se2?.isNone
  let se2 := se2?.getD se1
  psLoop sqrtA same (se1.flatMap fun e1 => se2.map fun e2 => (e1, e2))

/-- The entry list of a successful `compute_power_spectrum` call (the
empty list when the call raised). -/
def psResult (sqrtA : ℕ → α) (se1 : List (SpxEntry α))
    (se2? : Option (List (SpxEntry α))) : List (PSEntry α) :=
  (computePowerSpectrum sqrtA se1 se2?).toOption.getD []

end PowerSpectrum

/-! ## Concrete data for evaluating the development on small inputs -/

/-- A concrete interpretation of the square-root symbol used when the
development is evaluated over `ℚ` (any interpretation works; the theorems
below hold for all of them). -/
def ratSqrt : ℕ → ℚ := fun n => (n : ℚ)

/-- A one-sample, one-property spherical-expansion block without gradient. -/
def blkW : SpxBlock ℚ :=
  { samples := [(0, 0)], nm := 1, propNames := ["n"], props := [[0]],
    values := fun _ _ _ => 2, grad := none }

/-- A second gradient-less block, with different values. -/
def blkB : SpxBlock ℚ :=
  { samples := [(0, 0)], nm := 1, propNames := ["n"], props := [[0]],
    values := fun _ _ _ => 3, grad := none }

/-- A nonempty `"positions"` gradient. -/
def gradW : SpxGrad ℚ := { samples := [(0, 0, 0)], data := fun _ _ _ _ => 1 }

/-- An empty `"positions"` gradient. -/
def gradE : SpxGrad ℚ := { samples := [], data := fun _ _ _ _ => 0 }

/-- The block `blkW` with the nonempty gradient attached. -/
def blkWg : SpxBlock ℚ :=
  { samples := [(0, 0)], nm := 1, propNames := ["n"], props := [[0]],
    values := fun _ _ _ => 2, grad := some gradW }

/-- The block `blkW` with the empty gradient attached. -/
def blkWe : SpxBlock ℚ :=
  { samples := [(0, 0)], nm := 1, propNames := ["n"], props := [[0]],
    values := fun _ _ _ => 3, grad := some gradE }

/-- A two-entry spherical expansion (one `l`, one center species, two
neighbor species), gradient-less. -/
def seW : List (SpxEntry ℚ) := [((0, 1, 1), blkW), ((0, 1, 2), blkB)]

/-- A two-entry spherical expansion whose first block carries a
`"positions"` gradient while the second does not. -/
def seAsym : List (SpxEntry ℚ) := [((0, 1, 1), blkWg), ((0, 1, 2), blkW)]

/-- Concrete hyperparameters without gradients. -/
def hypW : SphHypers := { maxAngular := 0, maxRadial := 1, computeGradients := false }

/-- Concrete hyperparameters with gradients. -/
def hypWg : SphHypers := { maxAngular := 0, maxRadial := 1, computeGradients := true }

/-- Two single-atom frames of the same species. -/
def framesW : List (List ℤ) := [[1], [1]]

/-- A concrete calculator output for `framesW`: two center rows whose
metadata uses flat global atom indices `0` and `1`. -/
def calcW : CalcOutput :=
  { data := fun _ _ _ _ => 1, info := [(0, 0, 1), (1, 1, 1)],
    grads := fun _ _ _ _ => 1, gradInfo := [] }

/-- A constant concrete per-structure pair calculator. -/
def calcP : ℕ → ℕ → ℕ → ℕ → ℕ → ℚ := fun _ _ _ _ _ => 1

/-- One single-atom frame, by atom count. -/
def framesP : List ℕ := [1]

/-- A default spherical-expansion block (used with `List.getD`). -/
def sphBlockDefault : SphBlock :=
  { samples := [], nm := 0, values := fun _ _ _ => 0, grad := none }

/-- A default pair-expansion block (used with `List.getD`). -/
def pairBlockDefault : PairBlock := { samples := [], nm := 0, values := fun _ _ _ => 0 }

/-- A concrete saved backward context with a nonempty gradient axis. -/
def ctxW : BackwardCtx :=
  { gradWidth := 1, gradSpx := fun _ _ => 0, gradInfo := [], outWidth := 1,
    gradOut := fun _ _ => 0 }

/-! ## Helper lemmas -/

section PowerSpectrumLemmas

variable {α : Type} [Field α]

/-- Characterization of an emitted pair: the key records
`(l, species_center, neighbor_1, neighbor_2)` of the two input entries, the
pair passed the matching and deduplication guards, and the block carries
the samples, combined properties and contracted values built from the
aligned blocks with the deduplication factor. -/
theorem processPair_emit_spec {sqrtA : ℕ → α} {same : Bool}
    {e1 e2 : SpxEntry α} {k : ℕ × ℤ × ℤ × ℤ} {b : PSBlock α}
    (h : processPair sqrtA same e1 e2 = .emit k b) :
    k = (e1.1.1, e1.1.2.1, e1.1.2.2, e2.1.2.2) ∧
    e1.1.1 = e2.1.1 ∧ e1.1.2.1 = e2.1.2.1 ∧
    ¬(e1.1.2.2 > e2.1.2.2 ∧ same = true) ∧
    b.samples = (alignPair e1.2 e2.2).1.samples ∧
    b.propNames = psPropNames (alignPair e1.2 e2.2).1 (alignPair e1.2 e2.2).2 ∧
    b.props = psProperties (alignPair e1.2 e2.2).1 (alignPair e1.2 e2.2).2 ∧
    b.values = psPairValues (psFactor sqrtA e1.1.1 e1.1.2.2 e2.1.2.2)
      (alignPair e1.2 e2.2).1 (alignPair e1.2 e2.2).2 := by
  unfold processPair at h
  dsimp only at h
  split at h
  · exact absurd h (by simp)
  split at h
  · exact absurd h (by simp)
  rename_i hmatch hdedup
  push_neg at hmatch
  split at h
  · rename_i hg1
    cases h
    exact ⟨rfl, hmatch.1, hmatch.2, hdedup, rfl, rfl, rfl, rfl⟩
  rename_i g1 hg1
  split at h
  · exact absurd h (by simp)
  rename_i g2 hg2
  split at h
  · exact absurd h (by simp)
  cases h
  exact ⟨rfl, hmatch.1, hmatch.2, hdedup, rfl, rfl, rfl, rfl⟩

end PowerSpectrumLemmas

section PowerSpectrumLemmas2

variable {α : Type} [Field α]

/-- An emitted block carries a gradient only when both aligned input
blocks carry one with a nonempty sample set. -/
theorem processPair_emit_grad {sqrtA : ℕ → α} {same : Bool}
    {e1 e2 : SpxEntry α} {k : ℕ × ℤ × ℤ × ℤ} {b : PSBlock α}
    (h : processPair sqrtA same e1 e2 = .emit k b) (hb : b.grad.isSome) :
    ∃ g1 g2, (alignPair e1.2 e2.2).1.grad = some g1 ∧
      (alignPair e1.2 e2.2).2.grad = some g2 ∧
      g1.samples ≠ [] ∧ g2.samples ≠ [] := by
  unfold processPair at h
  dsimp only at h
  split at h
  · exact absurd h (by simp)
  split at h
  · exact absurd h (by simp)
  split at h
  · rename_i hg1
    cases h
    exact absurd hb (by simp [psBaseBlock])
  rename_i g1 hg1
  split at h
  · exact absurd h (by simp)
  rename_i g2 hg2
  split at h
  · exact absurd h (by simp)
  rename_i hne
  cases h
  push_neg at hne
  exact ⟨g1, g2, hg1, hg2, List.length_pos.mp (Nat.pos_of_ne_zero hne.1),
    List.length_pos.mp (Nat.pos_of_ne_zero hne.2)⟩

/-- When the first aligned block has no `"positions"` gradient, the
emitted block has none either. -/
theorem processPair_emit_nograd {sqrtA : ℕ → α} {same : Bool}
    {e1 e2 : SpxEntry α} {k : ℕ × ℤ × ℤ × ℤ} {b : PSBlock α}
    (h : processPair sqrtA same e1 e2 = .emit k b)
    (hg : (alignPair e1.2 e2.2).1.grad = none) : b.grad = none := by
  unfold processPair at h
  dsimp only at h
  split at h
  · exact absurd h (by simp)
  split at h
  · exact absurd h (by simp)
  rw [hg] at h
  cases h
  rfl

/-- A matching, non-deduplicated pair whose first aligned block has no
gradient is always emitted, with the gradient-less base block. -/
theorem processPair_emit_of_nograd {sqrtA : ℕ → α} {same : Bool}
    {e1 e2 : SpxEntry α} (hl : e1.1.1 = e2.1.1) (hcs : e1.1.2.1 = e2.1.2.1)
    (hd : ¬(e1.1.2.2 > e2.1.2.2 ∧ same = true))
    (hg : (alignPair e1.2 e2.2).1.grad = none) :
    processPair sqrtA same e1 e2 =
      .emit (e1.1.1, e1.1.2.1, e1.1.2.2, e2.1.2.2)
        (psBaseBlock (psFactor sqrtA e1.1.1 e1.1.2.2 e2.1.2.2)
          (alignPair e1.2 e2.2).1 (alignPair e1.2 e2.2).2) := by
  unfold processPair
  dsimp only
  rw [if_neg (by push_neg; exact ⟨hl, hcs⟩), if_neg hd, hg]

/-- A matching, non-deduplicated pair in which both aligned blocks carry a
gradient but either gradient sample set is empty is skipped entirely. -/
theorem processPair_skip_empty {sqrtA : ℕ → α} {same : Bool}
    {e1 e2 : SpxEntry α} {g1 g2 : SpxGrad α}
    (hl : e1.1.1 = e2.1.1) (hcs : e1.1.2.1 = e2.1.2.1)
    (hd : ¬(e1.1.2.2 > e2.1.2.2 ∧ same = true))
    (hg1 : (alignPair e1.2 e2.2).1.grad = some g1)
    (hg2 : (alignPair e1.2 e2.2).2.grad = some g2)
    (hempty : g1.samples = [] ∨ g2.samples = []) :
    processPair sqrtA same e1 e2 = .skip := by
  unfold processPair
  dsimp only
  rw [if_neg (by push_neg; exact ⟨hl, hcs⟩), if_neg hd, hg1, hg2]
  rcases hempty with h | h <;> simp [h]

/-- A matching, non-deduplicated pair whose first aligned block carries a
gradient while the second does not raises. -/
theorem processPair_err_asym {sqrtA : ℕ → α} {same : Bool}
    {e1 e2 : SpxEntry α} {g1 : SpxGrad α}
    (hl : e1.1.1 = e2.1.1) (hcs : e1.1.2.1 = e2.1.2.1)
    (hd : ¬(e1.1.2.2 > e2.1.2.2 ∧ same = true))
    (hg1 : (alignPair e1.2 e2.2).1.grad = some g1)
    (hg2 : (alignPair e1.2 e2.2).2.grad = none) :
    processPair sqrtA same e1 e2 =
      .err "positions gradient is not defined in this block" := by
  unfold processPair
  dsimp only
  rw [if_neg (by push_neg; exact ⟨hl, hcs⟩), if_neg hd, hg1, hg2]

omit [Field α] in
/-- Slicing preserves the absence of a gradient, hence so does alignment. -/
theorem alignPair_fst_grad_none {b1 b2 : SpxBlock α} (h : b1.grad = none) :
    (alignPair b1 b2).1.grad = none := by
  unfold alignPair
  split
  · exact h
  · simp [sliceSpxBlock, h]

/-- Every entry of a successful loop result was emitted by some processed
pair. -/
theorem psLoop_ok_mem {sqrtA : ℕ → α} {same : Bool}
    {ps : List (SpxEntry α × SpxEntry α)} {out : List (PSEntry α)}
    (h : psLoop sqrtA same ps = .ok out) :
    ∀ e ∈ out, ∃ p ∈ ps, processPair sqrtA same p.1 p.2 = .emit e.1 e.2 := by
  induction ps generalizing out with
  | nil =>
    cases h
    intro e he
    exact absurd he (List.not_mem_nil e)
  | cons p rest ih =>
    unfold psLoop at h
    cases hp : processPair sqrtA same p.1 p.2 with
    | err msg => rw [hp] at h; exact absurd h (by simp)
    | skip =>
      rw [hp] at h
      intro e he
      obtain ⟨q, hq, hqe⟩ := ih h e he
      exact ⟨q, List.mem_cons_of_mem p hq, hqe⟩
    | emit k b =>
      rw [hp] at h
      cases hrest : psLoop sqrtA same rest with
      | error msg => rw [hrest] at h; exact absurd h (by simp)
      | ok out2 =>
        rw [hrest] at h
        cases h
        intro e he
        rcases List.mem_cons.mp he with he | he
        · exact ⟨p, List.mem_cons_self p rest, by rw [he, hp]⟩
        · obtain ⟨q, hq, hqe⟩ := ih hrest e he
          exact ⟨q, List.mem_cons_of_mem p hq, hqe⟩

/-- Conversely, when the loop succeeds, every pair that emits contributes
its entry to the result. -/
theorem psLoop_mem_ok {sqrtA : ℕ → α} {same : Bool}
    {ps : List (SpxEntry α × SpxEntry α)} {out : List (PSEntry α)}
    (h : psLoop sqrtA same ps = .ok out) :
    ∀ p ∈ ps, ∀ k b, processPair sqrtA same p.1 p.2 = .emit k b →
      (k, b) ∈ out := by
  induction ps generalizing out with
  | nil =>
    intro p hp
    exact absurd hp (List.not_mem_nil p)
  | cons q rest ih =>
    unfold psLoop at h
    cases hq : processPair sqrtA same q.1 q.2 with
    | err msg => rw [hq] at h; exact absurd h (by simp)
    | skip =>
      rw [hq] at h
      intro p hp k b hemit
      rcases List.mem_cons.mp hp with hp | hp
      · rw [hp, hq] at hemit; exact absurd hemit (by simp)
      · exact ih h p hp k b hemit
    | emit k0 b0 =>
      rw [hq] at h
      cases hrest : psLoop sqrtA same rest with
      | error msg => rw [hrest] at h; exact absurd h (by simp)
      | ok out2 =>
        rw [hrest] at h
        cases h
        intro p hp k b hemit
        rcases List.mem_cons.mp hp with hp | hp
        · rw [hp, hq] at hemit
          cases hemit
          exact List.mem_cons_self _ _
        · exact List.mem_cons_of_mem _ (ih hrest p hp k b hemit)

end PowerSpectrumLemmas2

section IndexLemmas

variable {α : Type} [Field α]

/-- Evaluating the flattened contraction at flat property index
`a * n_props_2 + b` recovers the entry `(a, b)` of the un-flattened
`einsum` output. -/
theorem psPairValues_apply (f : α) (b1 b2 : SpxBlock α) (i a c : ℕ)
    (hc : c < b2.props.length) :
    psPairValues f b1 b2 i (a * b2.props.length + c) =
      f * ∑ m ∈ Finset.range b1.nm, b1.values i m a * b2.values i m c := by
  have hp : 0 < b2.props.length := Nat.lt_of_le_of_lt (Nat.zero_le c) hc
  have hdiv : (a * b2.props.length + c) / b2.props.length = a := by
    rw [Nat.mul_comm, Nat.mul_add_div hp, Nat.div_eq_of_lt hc, Nat.add_zero]
  have hmod : (a * b2.props.length + c) % b2.props.length = c := by
    rw [Nat.mul_comm a b2.props.length, Nat.mul_add_mod, Nat.mod_eq_of_lt hc]
  simp only [psPairValues, hdiv, hmod]

/-- Row-major indexing into a flattened cross-product of row lists. -/
theorem cross_getD (ps qs : List (List ℤ)) (a c : ℕ)
    (ha : a < ps.length) (hc : c < qs.length) :
    (ps.flatMap fun p1 => qs.map fun p2 => p1 ++ p2).getD (a * qs.length + c) [] =
      ps.getD a [] ++ qs.getD c [] := by
  induction ps generalizing a with
  | nil => exact absurd ha (by simp)
  | cons p ps ih =>
    cases a with
    | zero =>
      rw [List.flatMap_cons, List.getD_append _ _ _ _ (by simpa using hc),
        Nat.zero_mul, Nat.zero_add, List.getD_eq_getElem _ _ (by simpa using hc),
        List.getElem_map, List.getD_cons_zero, List.getD_eq_getElem _ _ hc]
    | succ a =>
      have hskip : (qs.map fun p2 => p ++ p2).length ≤ (a + 1) * qs.length + c := by
        rw [List.length_map, Nat.succ_mul]
        omega
      rw [List.flatMap_cons, List.getD_append_right _ _ _ _ hskip, List.length_map,
        Nat.succ_mul, List.getD_cons_succ]
      have harith : a * qs.length + qs.length + c - qs.length = a * qs.length + c := by
        omega
      rw [harith]
      exact ih a (Nat.lt_of_succ_lt_succ ha)

omit [Field α] in
/-- The flattened cross-product property row at flat index
`a * n_props_2 + b` is the concatenation of the `a`-th row of the first
block's properties and the `b`-th row of the second block's. -/
theorem psProperties_getD (b1 b2 : SpxBlock α) (a c : ℕ)
    (ha : a < b1.props.length) (hc : c < b2.props.length) :
    (psProperties b1 b2).getD (a * b2.props.length + c) [] =
      b1.props.getD a [] ++ b2.props.getD c [] :=
  cross_getD b1.props b2.props a c ha hc

end IndexLemmas

/-- The spherical-expansion key list is the list cross-product of the
angular range and two copies of the species list. -/
theorem sphKeys_eq_product (L : ℕ) (S : List ℤ) :
    sphKeys L S = (List.range (L + 1)) ×ˢ (S ×ˢ S) := by
  simp only [sphKeys, SProd.sprod, List.product, List.map_flatMap, List.map_map]
  rfl

/-- The spherical-expansion key list has one entry per element of the full
cross-product. -/
theorem sphKeys_length (L : ℕ) (S : List ℤ) :
    (sphKeys L S).length = (L + 1) * (S.length * S.length) := by
  rw [sphKeys_eq_product, List.length_product, List.length_product,
    List.length_range]

/-- Membership in the spherical-expansion key list is exactly membership in
the full cross-product. -/
theorem sphKeys_mem (L : ℕ) (S : List ℤ) (l : ℕ) (cs ns : ℤ) :
    (l, cs, ns) ∈ sphKeys L S ↔ l < L + 1 ∧ cs ∈ S ∧ ns ∈ S := by
  rw [sphKeys_eq_product]
  simp [List.mem_product, List.mem_range]

/-- Indexing the concatenated per-frame local index lists at a flat global
index belonging to frame `s` yields the local index within frame `s`. -/
theorem globalToLocal_getD (frames : List (List ℤ)) (s g : ℕ)
    (hs : s < frames.length) (h1 : frameOffset frames s ≤ g)
    (h2 : g < frameOffset frames s + (frames.getD s []).length) :
    (globalToLocal frames).getD g 0 = g - frameOffset frames s := by
  induction frames generalizing s g with
  | nil => exact absurd hs (by simp)
  | cons f fs ih =>
    cases s with
    | zero =>
      simp only [frameOffset, List.take_zero, List.map_nil, List.sum_nil,
        Nat.zero_add, List.getD_cons_zero] at h1 h2 ⊢
      rw [Nat.sub_zero]
      unfold globalToLocal
      rw [List.flatMap_cons, List.getD_append _ _ _ _ (by simpa using h2),
        List.getD_eq_getElem _ _ (by simpa using h2), List.getElem_range]
    | succ s =>
      have hoff : frameOffset (f :: fs) (s + 1) = f.length + frameOffset fs s := by
        simp [frameOffset, List.take_succ_cons]
      rw [hoff] at h1 h2
      rw [List.getD_cons_succ] at h2
      unfold globalToLocal
      rw [List.flatMap_cons,
        List.getD_append_right _ _ _ _ (by rw [List.length_range]; omega),
        List.length_range]
      have := ih s (g - f.length) (by simpa using hs) (by omega) (by omega)
      unfold globalToLocal at this
      rw [this, hoff]
      omega

/-! ## Claim theorems -/

/-- C7: whenever the gradient-computation flag is set in the
hyperparameters, `RascalPairExpansion.compute` fails immediately with the
explicit error message, for every calculator and every structure list — in
particular the result does not depend on the calculator, so the calculator
is never invoked and no partial computation is performed. -/
theorem pairCompute_gradient_rejected (h : SphHypers)
    (calcF : ℕ → ℕ → ℕ → ℕ → ℕ → ℚ) (frames : List ℕ)
    (hg : h.computeGradients = true) :
    pairCompute h calcF frames =
      .error "Pair expansion with gradient is not implemented" := by
  simp [pairCompute, hg]

/-- Witness for C7 at a concrete input. -/
theorem pairCompute_gradient_rejected_witness :
    pairCompute hypWg calcP framesP =
      .error "Pair expansion with gradient is not implemented" :=
  pairCompute_gradient_rejected hypWg calcP framesP rfl

/-- C9: whenever position gradients are requested
(`needs_input_grad[1]`) but the saved gradient coefficient array has a
zero-width second axis (the calculator was not configured to compute
gradients), `SphericalExpansionAutograd.backward` fails explicitly with
the missing-gradients error, whatever the remaining flags are. -/
theorem sphBackward_missing_gradients (ctx : BackwardCtx) (c n : Bool)
    (hw : ctx.gradWidth = 0) :
    sphBackward ctx (false, true, c, n) =
      .error "missing gradients, please set `compute_gradients` to True" := by
  simp [sphBackward, hw]

/-- Witness for C9 at a concrete input. -/
theorem sphBackward_missing_gradients_witness :
    sphBackward
        { gradWidth := 0, gradSpx := fun _ _ => 0, gradInfo := [],
          outWidth := 1, gradOut := fun _ _ => 0 }
        (false, true, false, false) =
      .error "missing gradients, please set `compute_gradients` to True" :=
  sphBackward_missing_gradients _ false false rfl

/-- C6: gradients requested with respect to the calculator or the unit
cell do fail explicitly, but — because the source tests
`ctx.needs_input_grad[2]` twice instead of testing index 3 — a request
for gradients with respect to the atomic numbers alone is silently
answered with `None` gradients and no error, contradicting the claim. -/
theorem sphBackward_numbers_silently_ignored :
    sphBackward ctxW (true, false, false, false) =
        .error "can not compute gradients w.r.t. calculator" ∧
    sphBackward ctxW (false, false, true, false) =
        .error "can not compute gradients w.r.t. cell" ∧
    sphBackward ctxW (false, false, false, true) = .ok (none, none, none, none) :=
  ⟨rfl, rfl, rfl⟩

/-- C3: for every structure list and calculator output,
`RascalSphericalExpansion.compute` returns exactly
`(max_angular + 1) * |species|²` keys with one block per key, and the keys
are exactly the full cross-product of the angular range with two copies of
the global species set — including combinations with no matching centers. -/
theorem sphCompute_full_cross_product (h : SphHypers) (frames : List (List ℤ))
    (c : CalcOutput) :
    (sphCompute h frames c).keys.length =
      (h.maxAngular + 1) *
        ((globalSpecies frames).length * (globalSpecies frames).length) ∧
    (sphCompute h frames c).blocks.length = (sphCompute h frames c).keys.length ∧
    ∀ (l : ℕ) (cs ns : ℤ),
      (l, cs, ns) ∈ (sphCompute h frames c).keys ↔
        l < h.maxAngular + 1 ∧ cs ∈ globalSpecies frames ∧
          ns ∈ globalSpecies frames := by
  refine ⟨?_, ?_, ?_⟩
  · simpa [sphCompute] using sphKeys_length h.maxAngular (globalSpecies frames)
  · simp [sphCompute]
  · intro l cs ns
    simpa [sphCompute] using sphKeys_mem h.maxAngular (globalSpecies frames) l cs ns

/-- Shape facts about the gradient sub-block builder: the angular and
radial extents are always `2l+1` and `max_radial`, and an empty sample set
happens exactly in the explicit zero-row case. -/
theorem sphGradFor_spec (h : SphHypers) (frames : List (List ℤ))
    (c : CalcOutput) (mask : List ℕ) (nsIdx l : ℕ) (ns : ℤ) :
    (sphGradFor h frames c mask nsIdx l ns).nm = 2 * l + 1 ∧
    (sphGradFor h frames c mask nsIdx l ns).nprops = h.maxRadial ∧
    ((sphGradFor h frames c mask nsIdx l ns).samples = [] →
      (sphGradFor h frames c mask nsIdx l ns).nRows = 0) := by
  unfold sphGradFor
  dsimp only
  split
  · exact ⟨rfl, rfl, fun _ => rfl⟩
  · refine ⟨rfl, rfl, fun hsamp => ?_⟩
    rw [List.map_eq_nil_iff] at hsamp
    simp [hsamp]

/-- C10: when the gradient flag is set, every block of
`RascalSphericalExpansion.compute` has a `"positions"` gradient attached;
its angular and radial extents are `2l+1` and `max_radial` (the spatial
direction axis has extent 3 by construction of `SphGrad`), and when no
gradient entry survived the exact-zero-norm filter the gradient is the
explicit empty one with zero sample rows. -/
theorem sphCompute_gradient_always_attached (h : SphHypers)
    (frames : List (List ℤ)) (c : CalcOutput)
    (hg : h.computeGradients = true) :
    ∀ i, i < (sphCompute h frames c).blocks.length →
      ∃ g, ((sphCompute h frames c).blocks.getD i sphBlockDefault).grad = some g ∧
        g.nm = 2 * ((sphCompute h frames c).keys.getD i (0, 0, 0)).1 + 1 ∧
        g.nprops = h.maxRadial ∧
        (g.samples = [] → g.nRows = 0) := by
  intro i hi
  have hki : i < (sphKeys h.maxAngular (globalSpecies frames)).length := by
    simpa [sphCompute] using hi
  have hblock : (sphCompute h frames c).blocks.getD i sphBlockDefault =
      sphBlockFor h frames c (globalSpecies frames)
        ((sphKeys h.maxAngular (globalSpecies frames)).getD i (0, 0, 0)) := by
    simp only [sphCompute]
    rw [List.getD_eq_getElem _ _ (by simpa using hki), List.getElem_map,
      List.getD_eq_getElem _ _ hki]
  have hkey : (sphCompute h frames c).keys.getD i (0, 0, 0) =
      (sphKeys h.maxAngular (globalSpecies frames)).getD i (0, 0, 0) := rfl
  rw [hblock, hkey]
  obtain ⟨h1, h2, h3⟩ := sphGradFor_spec h frames c
    (centerMask c.info
      ((sphKeys h.maxAngular (globalSpecies frames)).getD i (0, 0, 0)).2.1)
    ((globalSpecies frames).findIdx
      (· == ((sphKeys h.maxAngular (globalSpecies frames)).getD i (0, 0, 0)).2.2))
    ((sphKeys h.maxAngular (globalSpecies frames)).getD i (0, 0, 0)).1
    ((sphKeys h.maxAngular (globalSpecies frames)).getD i (0, 0, 0)).2.2
  exact ⟨_, by simp [sphBlockFor, hg], h1, h2, h3⟩

/-- Witness for C10 at a concrete input. -/
theorem sphCompute_gradient_always_attached_witness :
    hypWg.computeGradients = true ∧
    ∃ g, ((sphCompute hypWg framesW calcW).blocks.getD 0 sphBlockDefault).grad
          = some g ∧
      g.nm = 2 * ((sphCompute hypWg framesW calcW).keys.getD 0 (0, 0, 0)).1 + 1 ∧
      g.nprops = hypWg.maxRadial ∧
      (g.samples = [] → g.nRows = 0) :=
  ⟨rfl, sphCompute_gradient_always_attached hypWg framesW calcW rfl 0 (by decide)⟩

/-- C4: assuming the calculator metadata is consistent (every `info` row
`(structure, center, species)` has a structure index in range and a flat
global center index that belongs to that structure's slice of the
concatenated atom numbering), every sample row stored in any block of
`RascalSphericalExpansion.compute` is a `(structure, center)` pair whose
center is the per-structure-local atom index — the global index minus the
structure's flat offset, assigned in atom order — and in particular
satisfies `0 ≤ center < len(structure)`, so it is never the flat global
index whenever the offset is nonzero. -/
theorem sphCompute_local_sample_indices (h : SphHypers)
    (frames : List (List ℤ)) (c : CalcOutput)
    (hinfo : ∀ row ∈ c.info, 0 ≤ row.1 ∧ row.1.toNat < frames.length ∧
      (frameOffset frames row.1.toNat : ℤ) ≤ row.2.1 ∧
      row.2.1 < frameOffset frames row.1.toNat +
        ((frames.getD row.1.toNat []).length : ℤ)) :
    ∀ b ∈ (sphCompute h frames c).blocks, ∀ q ∈ b.samples,
      ∃ row ∈ c.info, q.1 = row.1 ∧
        q.2 = row.2.1 - (frameOffset frames row.1.toNat : ℤ) ∧
        0 ≤ q.1 ∧ q.1.toNat < frames.length ∧ 0 ≤ q.2 ∧
        q.2 < ((frames.getD q.1.toNat []).length : ℤ) := by
  intro b hb q hq
  simp only [sphCompute, List.mem_map] at hb
  obtain ⟨key, hkey, rfl⟩ := hb
  unfold sphBlockFor at hq
  simp only [List.mem_map] at hq
  obtain ⟨r, hr, rfl⟩ := hq
  unfold centerMask at hr
  rw [List.mem_filter, List.mem_range] at hr
  have hrow : c.info.getD r (0, 0, 0) ∈ c.info := by
    rw [List.getD_eq_getElem _ _ hr.1]
    exact List.getElem_mem hr.1
  obtain ⟨hpos, hs, hlo, hhi⟩ := hinfo _ hrow
  have hglo : 0 ≤ (c.info.getD r (0, 0, 0)).2.1 := by
    have : (0 : ℤ) ≤ (frameOffset frames (c.info.getD r (0, 0, 0)).1.toNat : ℤ) :=
      Int.natCast_nonneg _
    omega
  have hlocal : localAtomId frames (c.info.getD r (0, 0, 0)).2.1 =
      (c.info.getD r (0, 0, 0)).2.1.toNat -
        frameOffset frames (c.info.getD r (0, 0, 0)).1.toNat := by
    unfold localAtomId
    exact globalToLocal_getD frames _ _ hs (by omega) (by omega)
  refine ⟨c.info.getD r (0, 0, 0), hrow, rfl, ?_, hpos, hs, Int.natCast_nonneg _, ?_⟩
  · rw [hlocal]
    omega
  · dsimp only
    rw [hlocal]
    omega

/-- Witness for C4 at a concrete input with two single-atom frames, in
which the second center's flat global index is 1 but its stored local
index is 0. -/
theorem sphCompute_local_sample_indices_witness :
    ∃ row ∈ calcW.info, ((1 : ℤ), (0 : ℤ)).1 = row.1 ∧
      ((1 : ℤ), (0 : ℤ)).2 = row.2.1 - (frameOffset framesW row.1.toNat : ℤ) ∧
      0 ≤ ((1 : ℤ), (0 : ℤ)).1 ∧ ((1 : ℤ), (0 : ℤ)).1.toNat < framesW.length ∧
      0 ≤ ((1 : ℤ), (0 : ℤ)).2 ∧
      ((1 : ℤ), (0 : ℤ)).2 <
        ((framesW.getD ((1 : ℤ), (0 : ℤ)).1.toNat []).length : ℤ) :=
  sphCompute_local_sample_indices hypW framesW calcW (by decide)
    (sphBlockFor hypW framesW calcW (globalSpecies framesW) (0, 1, 1))
    (List.mem_singleton.mpr rfl) (1, 0) (by decide)

/-- The concatenated data table row `r` is the coefficient table of the
`r`-th retained pair. -/
theorem pairData_getD (h : SphHypers) (calcF : ℕ → ℕ → ℕ → ℕ → ℕ → ℚ)
    (frames : List ℕ) (maxAtoms r : ℕ)
    (hr : r < (retainedTriples h calcF frames maxAtoms).length) :
    (pairData h calcF frames maxAtoms).getD r (fun _ _ => 0) =
      fun n lm =>
        calcF ((retainedTriples h calcF frames maxAtoms).getD r (0, 0, 0)).1
          ((retainedTriples h calcF frames maxAtoms).getD r (0, 0, 0)).2.1
          ((retainedTriples h calcF frames maxAtoms).getD r (0, 0, 0)).2.2 n lm := by
  unfold pairData
  rw [List.getD_eq_getElem _ _ (by simpa using hr), List.getElem_map,
    List.getD_eq_getElem _ _ hr]

/-- C8: with the gradient flag unset, `RascalPairExpansion.compute`
(invoking the opaque calculator once per structure) returns one block per
angular degree `l ≤ max_angular`; all blocks share the samples Labels of
`(structure, center_i, center_j)` triples, which contains exactly the
pairs whose squared coefficient norm (summed over the radial and angular
axes) exceeds `1e-20`; and block `l`'s value at `(row, m, n)` is the
retained pair's coefficient at radial index `n` and flattened angular
index `lm_slices[l].start + m`. -/
theorem pairCompute_sparse_pruning (h : SphHypers)
    (calcF : ℕ → ℕ → ℕ → ℕ → ℕ → ℚ) (frames : List ℕ)
    (hg : h.computeGradients = false) :
    ((pairCompute h calcF frames).toOption.getD ⟨[], []⟩).keys =
      List.range (h.maxAngular + 1) ∧
    ((pairCompute h calcF frames).toOption.getD ⟨[], []⟩).blocks.length =
      h.maxAngular + 1 ∧
    (∀ t : ℕ × ℕ × ℕ,
      t ∈ retainedTriples h calcF frames (frames.foldr max 0) ↔
        t.1 < frames.length ∧ t.2.1 < frames.getD t.1 0 ∧
          t.2.2 < frames.foldr max 0 ∧
          1 / 10 ^ 20 < pairNormSq h calcF t.1 t.2.1 t.2.2) ∧
    ∀ l, l < h.maxAngular + 1 →
      ((pairCompute h calcF frames).toOption.getD ⟨[], []⟩).blocks.getD l
          pairBlockDefault =
        pairBlockFor h calcF frames (frames.foldr max 0) l ∧
      (pairBlockFor h calcF frames (frames.foldr max 0) l).samples =
        retainedTriples h calcF frames (frames.foldr max 0) ∧
      (pairBlockFor h calcF frames (frames.foldr max 0) l).nm = 2 * l + 1 ∧
      ∀ r m n, r < (retainedTriples h calcF frames (frames.foldr max 0)).length →
        (pairBlockFor h calcF frames (frames.foldr max 0) l).values r m n =
          calcF
            ((retainedTriples h calcF frames (frames.foldr max 0)).getD r
              (0, 0, 0)).1
            ((retainedTriples h calcF frames (frames.foldr max 0)).getD r
              (0, 0, 0)).2.1
            ((retainedTriples h calcF frames (frames.foldr max 0)).getD r
              (0, 0, 0)).2.2
            n (lmStart l + m) := by
  have hres : (pairCompute h calcF frames).toOption.getD ⟨[], []⟩ =
      { keys := List.range (h.maxAngular + 1)
        blocks := (List.range (h.maxAngular + 1)).map
          (pairBlockFor h calcF frames (frames.foldr max 0)) } := by
    simp [pairCompute, hg, Except.toOption]
  refine ⟨by rw [hres], by rw [hres]; simp, ?_, ?_⟩
  · intro t
    obtain ⟨i, c, j⟩ := t
    simp only [retainedTriples, List.mem_flatMap, List.mem_map, List.mem_filter,
      List.mem_range, decide_eq_true_eq]
    constructor
    · rintro ⟨i', hi', c', hc', j', ⟨hj', hnorm⟩, heq⟩
      cases heq
      exact ⟨hi', hc', hj', hnorm⟩
    · rintro ⟨hi, hc, hj, hnorm⟩
      exact ⟨i, hi, c, hc, j, ⟨hj, hnorm⟩, rfl⟩
  · intro l hl
    refine ⟨?_, rfl, rfl, ?_⟩
    · rw [hres]
      simp only
      rw [List.getD_eq_getElem _ _ (by simpa using hl), List.getElem_map,
        List.getElem_range]
    · intro r m n hr
      show ((pairData h calcF frames (frames.foldr max 0)).getD r fun _ _ => 0)
          n (lmStart l + m) = _
      rw [pairData_getD h calcF frames (frames.foldr max 0) r hr]

/-- Witness for C8 at a concrete input. -/
theorem pairCompute_sparse_pruning_witness :
    ((pairCompute hypW calcP framesP).toOption.getD ⟨[], []⟩).keys =
      List.range (hypW.maxAngular + 1) ∧
    ((0, 0, 0) ∈ retainedTriples hypW calcP framesP (framesP.foldr max 0) ↔
      (0 : ℕ) < framesP.length ∧ (0 : ℕ) < framesP.getD 0 0 ∧
        (0 : ℕ) < framesP.foldr max 0 ∧
        1 / 10 ^ 20 < pairNormSq hypW calcP 0 0 0) :=
  ⟨(pairCompute_sparse_pruning hypW calcP framesP rfl).1,
   (pairCompute_sparse_pruning hypW calcP framesP rfl).2.2.1 (0, 0, 0)⟩

/-- C1: every `(key, block)` pair emitted by the double loop of
`compute_power_spectrum` carries: the first aligned block's samples; the
combined property names suffixed `_1`/`_2`; the flattened cross-product
property rows (row `a * n_props_2 + b` is row `a` of the first block's
properties joined with row `b` of the second's); and the 2-d value array
whose entry at `(sample, a * n_props_2 + b)` is the deduplication factor
times the sum over the shared angular components `m` of
`block_1[sample, m, a] * block_2[sample, m, b]`. -/
theorem psPair_contraction {α : Type} [Field α] (sqrtA : ℕ → α) (same : Bool)
    (e1 e2 : SpxEntry α) (k : ℕ × ℤ × ℤ × ℤ) (b : PSBlock α)
    (hemit : processPair sqrtA same e1 e2 = .emit k b) :
    b.samples = (alignPair e1.2 e2.2).1.samples ∧
    b.propNames =
      (alignPair e1.2 e2.2).1.propNames.map (fun nm => nm ++ "_1") ++
        (alignPair e1.2 e2.2).2.propNames.map (fun nm => nm ++ "_2") ∧
    b.props = (alignPair e1.2 e2.2).1.props.flatMap
      (fun p1 => (alignPair e1.2 e2.2).2.props.map fun p2 => p1 ++ p2) ∧
    (∀ i a c, c < (alignPair e1.2 e2.2).2.props.length →
      b.values i (a * (alignPair e1.2 e2.2).2.props.length + c) =
        psFactor sqrtA e1.1.1 e1.1.2.2 e2.1.2.2 *
          ∑ m ∈ Finset.range (alignPair e1.2 e2.2).1.nm,
            (alignPair e1.2 e2.2).1.values i m a *
              (alignPair e1.2 e2.2).2.values i m c) ∧
    (∀ a c, a < (alignPair e1.2 e2.2).1.props.length →
        c < (alignPair e1.2 e2.2).2.props.length →
      b.props.getD (a * (alignPair e1.2 e2.2).2.props.length + c) [] =
        (alignPair e1.2 e2.2).1.props.getD a [] ++
          (alignPair e1.2 e2.2).2.props.getD c []) := by
  obtain ⟨hk, hl, hcs, hd, hsamp, hnames, hprops, hvals⟩ := processPair_emit_spec hemit
  refine ⟨hsamp, hnames, hprops, ?_, ?_⟩
  · intro i a c hc
    rw [hvals]
    exact psPairValues_apply _ _ _ i a c hc
  · intro a c ha hc
    rw [hprops]
    exact psProperties_getD _ _ a c ha hc

/-- Witness for C1 at a concrete input. -/
theorem psPair_contraction_witness :
    (psBaseBlock (psFactor ratSqrt 0 1 1) (alignPair blkW blkW).1
          (alignPair blkW blkW).2).values 0
        (0 * (alignPair blkW blkW).2.props.length + 0) =
      psFactor ratSqrt 0 1 1 *
        ∑ m ∈ Finset.range (alignPair blkW blkW).1.nm,
          (alignPair blkW blkW).1.values 0 m 0 *
            (alignPair blkW blkW).2.values 0 m 0 :=
  (psPair_contraction ratSqrt true ((0, 1, 1), blkW) ((0, 1, 1), blkW)
      (0, 1, 1, 1)
      (psBaseBlock (psFactor ratSqrt 0 1 1) (alignPair blkW blkW).1
        (alignPair blkW blkW).2)
      rfl).2.2.2.1 0 0 0 (by decide)

/-- C2: in self-combination mode (second argument `None`): (1) every
emitted key has `neighbor_species_1 ≤ neighbor_species_2`, because every
pair with `neighbor_species_1 > neighbor_species_2` is skipped; (2) hence
the output never contains both `(l, cs, ns1, ns2)` and `(l, cs, ns2, ns1)`
for `ns1 ≠ ns2`; (3) every emitted block comes from two input entries of
the collection whose keys supply the output key's `l`, `species_center`
and the two neighbor species, and its values are the contraction of their
aligned blocks scaled by exactly `1/sqrt(2l+1)` when the two neighbor
species coincide and `sqrt(2)/sqrt(2l+1)` otherwise; and (4) when the
call succeeds, each
pair of gradient-less input blocks sharing `l` and `species_center` with
`ns1 ≤ ns2` contributes its key, so exactly one of the two symmetric keys
appears. -/
theorem psSelf_symmetric_dedup {α : Type} [Field α] (sqrtA : ℕ → α)
    (se : List (SpxEntry α)) :
    (∀ e ∈ psResult sqrtA se none, e.1.2.2.1 ≤ e.1.2.2.2) ∧
    (∀ (l : ℕ) (cs n1 n2 : ℤ), n1 ≠ n2 →
      ¬((l, cs, n1, n2) ∈ (psResult sqrtA se none).map Prod.fst ∧
        (l, cs, n2, n1) ∈ (psResult sqrtA se none).map Prod.fst)) ∧
    (∀ e ∈ psResult sqrtA se none, ∃ p1 ∈ se, ∃ p2 ∈ se,
      p1.1.1 = e.1.1 ∧ p1.1.2.1 = e.1.2.1 ∧ p1.1.2.2 = e.1.2.2.1 ∧
      p2.1.1 = e.1.1 ∧ p2.1.2.1 = e.1.2.1 ∧ p2.1.2.2 = e.1.2.2.2 ∧
      e.2.values = psPairValues
        (if e.1.2.2.1 = e.1.2.2.2 then 1 / sqrtA (2 * e.1.1 + 1)
          else sqrtA 2 / sqrtA (2 * e.1.1 + 1))
        (alignPair p1.2 p2.2).1 (alignPair p1.2 p2.2).2) ∧
    ((computePowerSpectrum sqrtA se none).isOk = true →
      ∀ (l : ℕ) (cs n1 n2 : ℤ) (b1 b2 : SpxBlock α),
        ((l, cs, n1), b1) ∈ se → ((l, cs, n2), b2) ∈ se → n1 ≤ n2 →
          b1.grad = none →
          (l, cs, n1, n2) ∈ (psResult sqrtA se none).map Prod.fst) := by
  have hloop : ∀ out, computePowerSpectrum sqrtA se none = .ok out →
      psLoop sqrtA true (se.flatMap fun x1 => se.map fun x2 => (x1, x2)) =
        .ok out := by
    intro out hout
    simpa [computePowerSpectrum] using hout
  have key1 : ∀ e ∈ psResult sqrtA se none, e.1.2.2.1 ≤ e.1.2.2.2 := by
    intro e he
    unfold psResult at he
    cases hres : computePowerSpectrum sqrtA se none with
    | error msg => rw [hres] at he; simp [Except.toOption] at he
    | ok out =>
      rw [hres] at he
      simp only [Except.toOption, Option.getD_some] at he
      obtain ⟨p, _, hemit⟩ := psLoop_ok_mem (hloop out hres) e he
      obtain ⟨hk, _, _, hd, _⟩ := processPair_emit_spec hemit
      rw [hk]
      by_contra hgt
      exact hd ⟨lt_of_not_ge hgt, rfl⟩
  refine ⟨key1, ?_, ?_, ?_⟩
  · intro l cs n1 n2 hne ⟨h1, h2⟩
    obtain ⟨x1, hx1, hk1⟩ := List.mem_map.mp h1
    obtain ⟨x2, hx2, hk2⟩ := List.mem_map.mp h2
    have t1 := key1 x1 hx1
    have t2 := key1 x2 hx2
    rw [hk1] at t1
    rw [hk2] at t2
    exact hne (le_antisymm t1 t2)
  · intro e he
    unfold psResult at he
    cases hres : computePowerSpectrum sqrtA se none with
    | error msg => rw [hres] at he; simp [Except.toOption] at he
    | ok out =>
      rw [hres] at he
      simp only [Except.toOption, Option.getD_some] at he
      obtain ⟨p, hp, hemit⟩ := psLoop_ok_mem (hloop out hres) e he
      obtain ⟨p1, hp1, hp2mem⟩ := List.mem_flatMap.mp hp
      obtain ⟨p2, hp2, heq⟩ := List.mem_map.mp hp2mem
      subst heq
      obtain ⟨hk, hl, hcs, _, _, _, _, hvals⟩ := processPair_emit_spec hemit
      refine ⟨p1, hp1, p2, hp2, by rw [hk], by rw [hk], by rw [hk],
        ?_, ?_, by rw [hk], ?_⟩
      · rw [hk]
        exact hl.symm
      · rw [hk]
        exact hcs.symm
      · rw [hk, hvals]
        rfl
  · intro hok l cs n1 n2 b1 b2 hm1 hm2 hle hgrad
    obtain ⟨out, hres⟩ : ∃ out, computePowerSpectrum sqrtA se none = .ok out := by
      cases hres : computePowerSpectrum sqrtA se none with
      | error msg => rw [hres] at hok; simp [Except.isOk, Except.toBool] at hok
      | ok out => exact ⟨out, rfl⟩
    have hp : (((l, cs, n1), b1), ((l, cs, n2), b2)) ∈
        se.flatMap fun x1 => se.map fun x2 => (x1, x2) :=
      List.mem_flatMap.mpr ⟨((l, cs, n1), b1), hm1,
        List.mem_map.mpr ⟨((l, cs, n2), b2), hm2, rfl⟩⟩
    have hemit := @processPair_emit_of_nograd α _ sqrtA true
      ((l, cs, n1), b1) ((l, cs, n2), b2) rfl rfl
      (fun hc => absurd hle (not_le.mpr hc.1)) (alignPair_fst_grad_none hgrad)
    have hmem := psLoop_mem_ok (hloop out hres) _ hp _ _ hemit
    have : psResult sqrtA se none = out := by
      unfold psResult
      rw [hres]
      rfl
    rw [this]
    exact List.mem_map.mpr ⟨_, hmem, rfl⟩

/-- Witness for C2 at a concrete input: a two-neighbor-species
self-combination, where the mixed key `(0, 1, 1, 2)` appears. -/
theorem psSelf_symmetric_dedup_witness :
    ((0 : ℕ), (1 : ℤ), (1 : ℤ), (2 : ℤ)) ∈
      (psResult ratSqrt seW none).map Prod.fst :=
  (psSelf_symmetric_dedup ratSqrt seW).2.2.2 rfl 0 1 1 2 blkW blkB
    (List.mem_cons_self _ _) (List.mem_cons_of_mem _ (List.mem_cons_self _ _))
    (by decide) rfl

/-- C5 counterexample: on a concrete input whose first block carries a
nonempty `"positions"` gradient while the second block carries none,
`compute_power_spectrum` raises (the gradient query on the second block
fails) instead of emitting a gradient-less output block, so the whole call
produces no output at all. -/
theorem psGradient_asymmetric_errors :
    computePowerSpectrum ratSqrt seAsym none =
      .error "positions gradient is not defined in this block" ∧
    psResult ratSqrt seAsym none = [] :=
  ⟨rfl, rfl⟩

/-- C5 (amended): (1) a gradient sub-block is attached to an emitted
output block only when both aligned input blocks carry a `"positions"`
gradient with a nonempty sample set; (2) when both carry one but either
sample set is empty, the pair is skipped entirely — no key and no block
are emitted for it; (3) when the first aligned block carries no gradient,
the emitted output block has no gradient; (4) but when the first aligned
block carries a gradient and the second does not, the call raises instead
of emitting a gradient-less block. -/
theorem psGradient_attachment_policy {α : Type} [Field α] (sqrtA : ℕ → α) :
    (∀ (same : Bool) (e1 e2 : SpxEntry α) (k : ℕ × ℤ × ℤ × ℤ) (b : PSBlock α),
      processPair sqrtA same e1 e2 = .emit k b → b.grad.isSome →
        ∃ g1 g2, (alignPair e1.2 e2.2).1.grad = some g1 ∧
          (alignPair e1.2 e2.2).2.grad = some g2 ∧
          g1.samples ≠ [] ∧ g2.samples ≠ []) ∧
    (∀ (same : Bool) (e1 e2 : SpxEntry α) (g1 g2 : SpxGrad α),
      e1.1.1 = e2.1.1 → e1.1.2.1 = e2.1.2.1 →
      ¬(e1.1.2.2 > e2.1.2.2 ∧ same = true) →
      (alignPair e1.2 e2.2).1.grad = some g1 →
      (alignPair e1.2 e2.2).2.grad = some g2 →
      (g1.samples = [] ∨ g2.samples = []) →
      processPair sqrtA same e1 e2 = .skip) ∧
    (∀ (same : Bool) (e1 e2 : SpxEntry α) (k : ℕ × ℤ × ℤ × ℤ) (b : PSBlock α),
      processPair sqrtA same e1 e2 = .emit k b →
      (alignPair e1.2 e2.2).1.grad = none → b.grad = none) ∧
    (∀ (same : Bool) (e1 e2 : SpxEntry α) (g1 : SpxGrad α),
      e1.1.1 = e2.1.1 → e1.1.2.1 = e2.1.2.1 →
      ¬(e1.1.2.2 > e2.1.2.2 ∧ same = true) →
      (alignPair e1.2 e2.2).1.grad = some g1 →
      (alignPair e1.2 e2.2).2.grad = none →
      processPair sqrtA same e1 e2 =
        .err "positions gradient is not defined in this block") :=
  ⟨fun _ _ _ _ _ h hb => processPair_emit_grad h hb,
   fun _ _ _ _ _ hl hcs hd hg1 hg2 he =>
     processPair_skip_empty hl hcs hd hg1 hg2 he,
   fun _ _ _ _ _ h hg => processPair_emit_nograd h hg,
   fun _ _ _ _ hl hcs hd hg1 hg2 =>
     processPair_err_asym hl hcs hd hg1 hg2⟩

/-- Witness for the amended C5 at a concrete input: a pair whose second
block carries an empty gradient sample set is skipped entirely. -/
theorem psGradient_attachment_policy_witness :
    processPair ratSqrt true ((0, 1, 1), blkWg) ((0, 1, 2), blkWe) =
      PairOutcome.skip :=
  (psGradient_attachment_policy ratSqrt).2.1 true ((0, 1, 1), blkWg)
    ((0, 1, 2), blkWe) gradW gradE rfl rfl (by decide) rfl rfl (Or.inr rfl)
